import Mathlib

/-!
Shallow embedding of the marl/jams-data dataset converters (src/parsers/) and
proofs about the behaviour its specification describes.

The repository is a set of eight Python scripts, each converting one
music-annotation dataset into the external JAMS container format.  The
embedding below translates, per script, the pure data transformations the
scripts perform: string munging, label remapping, segment extraction,
per-track control flow (skip / abort / write), and CLI argument shapes.
File-system and library effects are made explicit: a fallible read is an
`Option`/`Except` value, a run of a converter maps its input rows to either
outputs or errors, and the written files are explicit (path, content) pairs.
Times and durations are rationals.
-/

/-! ## Python string primitives

The scripts use `str.lower`, `str.strip`, `str.split`, `os.path.basename`
and slicing.  These are modelled character-wise on `String.data` so that
every definition reduces inside the kernel.  `Char.toLower` (ASCII-only
lowering) matches Python `str.lower` on the ASCII label data these datasets
hold. -/

/-- Python `s.lower()`, character-wise ASCII lowering. -/
def pyLower (s : String) : String :=
  String.mk (s.data.map Char.toLower)

/-- Python `s.strip()`: drop leading and trailing whitespace. -/
def pyStrip (s : String) : String :=
  String.mk (((s.data.dropWhile Char.isWhitespace).reverse.dropWhile
    Char.isWhitespace).reverse)

/-- Helper for `pySplitComma`, splitting a character list at every comma. -/
def splitCommaAux : List Char → List (List Char)
  | [] => [[]]
  | c :: rest =>
    match splitCommaAux rest with
    | [] => [[c]]
    | part :: parts =>
      if c = ',' then [] :: part :: parts else (c :: part) :: parts

/-- Python `s.split(",")` (no limit, empty pieces kept). -/
def pySplitComma (s : String) : List String :=
  (splitCommaAux s.data).map String.mk

/-- Helper for `pySplitOnceDash`: find the first dash and cut there. -/
def splitDashAux : List Char → Option (List Char × List Char)
  | [] => none
  | c :: rest =>
    if c = '-' then some ([], rest)
    else (splitDashAux rest).map (fun p => (c :: p.1, p.2))

/-- Python `s.split("-", 1)` restricted to the two-element unpacking the
CAL500 code performs: `none` models the `ValueError` raised when the string
holds no dash. -/
def pySplitOnceDash (s : String) : Option (String × String) :=
  (splitDashAux s.data).map (fun p => (String.mk p.1, String.mk p.2))

/-- Helper for `pyBasename`: characters after the last path separator. -/
def basenameAux : List Char → List Char
  | [] => []
  | c :: rest =>
    let r := basenameAux rest
    if c = '/' then r else if rest.any (· = '/') then r else c :: r

/-- Python `os.path.basename` on POSIX paths. -/
def pyBasename (s : String) : String :=
  String.mk (basenameAux s.data)

/-- Python `s[: n]` slicing by characters (the data here is ASCII). -/
def pyTake (n : Nat) (s : String) : String :=
  String.mk (s.data.take n)

/-- Python `"".join(s.split())`: lower-case is applied first by the callers,
so this models `"".join(s.lower().split())`, i.e. lower-casing and removing
every whitespace character. -/
def pyLowerNoSpace (s : String) : String :=
  String.mk ((s.data.map Char.toLower).filter (fun c => !c.isWhitespace))

/-! ## The JAMS output data model

The JAMS container format is external to this repository (the `jams`
Python package).  Only the parts the converters construct are modelled:
file-level metadata (whose fields default to empty title/artist and no
duration, as in the library) and observations, which are always
(time, duration, value, confidence) quadruples with an optional
(JSON-nullable) confidence. -/

/-- File-level metadata of a JAMS container.  Fields a converter does not
assign keep the library defaults: empty strings and a null duration. -/
structure FileMetadata where
  title : String := ""
  artist : String := ""
  duration : Option ℚ := none
deriving DecidableEq

/-- One observation of an annotation: a (time, duration, value, confidence)
quadruple; confidence is null when a converter does not pass it. -/
structure Observation (V : Type) where
  time : ℚ
  duration : ℚ
  value : V
  confidence : Option ℚ
deriving DecidableEq

/-- Python exception kinds relevant to the converters. -/
inductive PyError
  | ioError
  | valueError
  | indexError
deriving DecidableEq

/-! ## SALAMI converter (salami_parser.py) -/

namespace Salami

/-- Mapping of the labels to the actual labels allowed by the SALAMI
guidelines (labels_map in salami_parser.py; a dict with distinct keys,
transcribed as an association list). -/
def labels_map : List (String × String) := [
  ("a'/a''", "no_function"),
  ("b/c'", "no_function"),
  ("bagpipes", "instrumental"),
  ("banjo", "instrumental"),
  ("code", "coda"),
  ("dialog", "spoken"),
  ("female", "voice_female"),
  ("first", "main theme"),
  ("guitar", "instrumental"),
  ("hammond", "instrumental"),
  ("main_theme", "main theme"),
  ("male", "voice_male"),
  ("muted", "fade-out"),
  ("organ", "instrumental"),
  ("out", "outro"),
  ("piano", "instrumental"),
  ("recap", "recapitulation"),
  ("secondary_theme", "secondary theme"),
  ("spoken_voice", "spoken"),
  ("stage_speaking", "spoken"),
  ("steel", "instrumental"),
  ("tag", "head"),
  ("trumpet", "instrumental"),
  ("third", "third theme"),
  ("violin", "instrumental"),
  ("vocalizations", "voice"),
  ("vocals", "voice"),
  ("w/dialog", "spoken")]

/-- fix_label: lower-case the label, then remap it through labels_map,
defaulting to the lowered label itself. -/
def fix_label (label : String) : String :=
  let lower := pyLower label
  (labels_map.lookup lower).getD lower

/-- The level identifiers create_annotations iterates over (plus the
instrument level that get_level_segments also supports). -/
inductive Level
  | function
  | upper
  | lower
  | instrument
deriving DecidableEq

/-- The schema data get_level_segments pulls from the external jams
package: the segment_salami_function value enum and the upper/lower value
regex patterns (a regex match is a Boolean predicate on the label). -/
structure Schema where
  functionEnum : List String
  upperPat : String → Bool
  lowerPat : String → Bool

/-- get_level_segments: for every row of the boundary table and every
comma-separated label of the row, keep (time, label) according to the
level: function and instrument labels are stripped and remapped through
fix_label and then matched against the enum (or the parenthesis list);
upper and lower labels are matched as-is against the regex pattern. -/
def get_level_segments (sch : Schema) (df : List (ℚ × String)) (level : Level) :
    List (ℚ × String) :=
  df.flatMap (fun row =>
    (pySplitComma row.2).filterMap (fun label =>
      match level with
      | .function =>
        let l := fix_label (pyStrip label)
        if l ∈ sch.functionEnum then some (row.1, l) else none
      | .instrument =>
        let l := fix_label (pyStrip label)
        if l ∈ ["(", ")"] then some (row.1, l) else none
      | .upper =>
        if sch.upperPat label then some (row.1, label) else none
      | .lower =>
        if sch.lowerPat label then some (row.1, label) else none))

/-- The extractor as the specification sentence words it: at function level
the comma-separated label is only lower-cased and remapped (no whitespace
stripping) before the enum test.  Used to compare against the code. -/
def get_level_segments_claimed (sch : Schema) (df : List (ℚ × String))
    (level : Level) : List (ℚ × String) :=
  df.flatMap (fun row =>
    (pySplitComma row.2).filterMap (fun label =>
      match level with
      | .function =>
        let l := fix_label label
        if l ∈ sch.functionEnum then some (row.1, l) else none
      | .instrument =>
        let l := fix_label (pyStrip label)
        if l ∈ ["(", ")"] then some (row.1, l) else none
      | .upper =>
        if sch.upperPat label then some (row.1, label) else none
      | .lower =>
        if sch.lowerPat label then some (row.1, label) else none))

/-- One annotation of a SALAMI jam: its namespace string and its
observation list. -/
structure Annotation where
  ns : String
  data : List (Observation String)
deriving DecidableEq

/-- The namespace for each level (namespace_dict in create_annotations;
the instrument namespace is a TODO in the source and never iterated). -/
def nsOf : Level → String
  | .function => "segment_salami_function"
  | .upper => "segment_salami_upper"
  | .lower => "segment_salami_lower"
  | .instrument => "segment_salami_instrument"

/-- Iteration order of namespace_dict.keys() in create_annotations. -/
def levels : List Level := [.function, .upper, .lower]

/-- The observation loop of create_annotations: consecutive segment pairs
become observations; a pair with non-positive time difference is skipped;
value is the first segment's label and confidence is the jams default
null. -/
def make_observations (segments : List (ℚ × String)) :
    List (Observation String) :=
  (segments.zip segments.tail).filterMap (fun p =>
    let dur := p.2.1 - p.1.1
    if dur ≤ 0 then none else some ⟨p.1.1, dur, p.1.2, none⟩)

/-- create_annotations for one annotation file: none models a missing or
unreadable file (the caught IOError path, which contributes no
annotations); otherwise, one annotation per level, kept only when its
observation list is non-empty. -/
def create_annotations (sch : Schema)
    (df? : Option (List (ℚ × String))) : List Annotation :=
  match df? with
  | none => []
  | some df =>
    levels.filterMap (fun level =>
      let obs := make_observations (get_level_segments sch df level)
      if obs.length > 0 then some ⟨nsOf level, obs⟩ else none)

/-- np.max over a Python list: a ValueError on the empty list is modelled
as none. -/
def np_max : List ℚ → Option ℚ
  | [] => none
  | x :: xs => some (xs.foldl max x)

/-- The last boundary of one annotation: time plus duration of its last
observation; none models the IndexError of iloc[-1] on empty data. -/
def last_boundary (a : Annotation) : Option ℚ :=
  (a.data.getLast?).map (fun o => o.time + o.duration)

/-- Collect the per-annotation last boundaries, failing if any annotation
is empty (as the source's iloc[-1] would). -/
def all_last_boundaries : List Annotation → Option (List ℚ)
  | [] => some []
  | a :: rest =>
    match last_boundary a, all_last_boundaries rest with
    | some d, some ds => some (d :: ds)
    | _, _ => none

/-- get_duration: the maximum over all annotations of the last
observation's time plus duration; none models the exception raised when
the jam has no annotation (np.max of an empty list) or an empty one. -/
def get_duration (anns : List Annotation) : Option ℚ :=
  (all_last_boundaries anns).bind np_max

/-- A SALAMI jam: global metadata plus accumulated annotations. -/
structure Jam where
  file_metadata : FileMetadata
  annotations : List Annotation
deriving DecidableEq

/-- fill_global_metadata: title and artist come from CSV columns 7 and 8;
none models the IndexError on a short row. -/
def fill_global_metadata (metadata : List String) (dur : ℚ) :
    Option FileMetadata :=
  match metadata.get? 7, metadata.get? 8 with
  | some t, some a => some { title := t, artist := a, duration := some dur }
  | _, _ => none

/-- create_JAMS for one track.  pathExists is the sanity check on the
track's annotation directory; annFiles holds, for each of the three
candidate textfiles, none when absent or unreadable and the parsed
boundary table otherwise.  .ok none is the logged skip (no file written),
.ok (some jam) is a written file, .error is an uncaught exception
(np.max of an empty sequence raises when no annotation data was found). -/
def create_JAMS (sch : Schema) (metadata : List String) (pathExists : Bool)
    (annFiles : List (Option (List (ℚ × String)))) :
    Except PyError (Option Jam) :=
  if !pathExists then .ok none
  else
    let anns := annFiles.flatMap (create_annotations sch)
    match get_duration anns with
    | none => .error .valueError
    | some dur =>
      match fill_global_metadata metadata dur with
      | none => .error .indexError
      | some meta => .ok (some ⟨meta, anns⟩)

/-- Output path of process_one for a metadata row. -/
def out_name (md : List String) : String :=
  pyBasename (md.headD "") ++ ".jams"

/-- The write performed for one metadata row when its task completes
without raising: none for the header row (process_one returns before
create_JAMS) and for a skipped track (create_JAMS returned .ok none,
writing nothing), and the output path paired with the jam for a written
track.  jamOf abstracts the outcome of process_one's create_JAMS call on
the row's on-disk inputs. -/
def row_write (jamOf : List String → Except PyError (Option Jam))
    (md : List String) : Option (String × Jam) :=
  if md.headD "" = "SONG_ID" then none
  else
    match jamOf md with
    | .ok (some j) => some (out_name md, j)
    | _ => none

/-- The file writes of one batch run of process, with the rows listed in
the completion order of their per-row tasks under some n_jobs
scheduling.  A completed row writes according to row_write; a row whose
create_JAMS raises aborts the joblib.Parallel run, so the tasks after it
in completion order never write. -/
def run_writes (jamOf : List String → Except PyError (Option Jam)) :
    List (List String) → List (String × Jam)
  | [] => []
  | md :: rest =>
    if md.headD "" = "SONG_ID" then run_writes jamOf rest
    else
      match jamOf md with
      | .ok none => run_writes jamOf rest
      | .ok (some j) => (out_name md, j) :: run_writes jamOf rest
      | .error _ => []

/-- Replay writes in a given order on an empty output directory: a later
write to the same path overwrites an earlier one. -/
def runWrites (ws : List (String × Jam)) : String → Option Jam :=
  ws.foldl (fun fs w p => if p = w.1 then some w.2 else fs p) (fun _ => none)

end Salami

/-! ## CAL500 converter (cal500_parser.py) -/

namespace Cal500

/-- One song of the batch: its songNames.txt entry, the duration of its
mp3 (none models a missing or unreadable file, for which audioread raises
IOError), and its nonzero (tag, confidence) pairs. -/
structure Track where
  name : String
  dur : Option ℚ
  tags : List (String × ℚ)

/-- process_track: read the audio duration (IOError when the file is
missing), split the song name into artist and title at the first dash
(ValueError when there is none), and build the jam: metadata plus one
whole-track observation per tag with the soft annotation as
confidence. -/
def process_track (t : Track) :
    Except PyError (FileMetadata × List (Observation String)) :=
  match t.dur with
  | none => .error .ioError
  | some d =>
    match pySplitOnceDash t.name with
    | none => .error .valueError
    | some p =>
      .ok ({ title := p.2, artist := p.1, duration := some d },
        t.tags.map (fun tc => ⟨0, d, tc.1, some tc.2⟩))

/-- The batch loop of parse_cal500: per song, try process_track; an
IOError is caught (the song is skipped with a printed message and the
loop continues); any other exception propagates and aborts the run. -/
def parse_cal500 (songs : List Track) :
    Except PyError (List (FileMetadata × List (Observation String))) :=
  match songs with
  | [] => .ok []
  | s :: rest =>
    match process_track s with
    | .ok jam => (parse_cal500 rest).map (fun js => jam :: js)
    | .error .ioError => parse_cal500 rest
    | .error e => .error e

end Cal500

/-! ## CAL10K converter (cal10k_parser.py) -/

namespace Cal10k

/-- One song of the batch: its songList.tab row and the duration of its
audio file (none models a missing or unreadable file). -/
structure Track where
  artist : String
  title : String
  filename : String
  dur : Option ℚ
  tags : List String

/-- process_track: read the audio duration (IOError when the file is
missing) and build the jam: metadata plus one whole-track observation per
tag, with the default null confidence. -/
def process_track (t : Track) :
    Except PyError (FileMetadata × List (Observation String)) :=
  match t.dur with
  | none => .error .ioError
  | some d =>
    .ok ({ title := t.title, artist := t.artist, duration := some d },
      t.tags.map (fun tag => ⟨0, d, tag, none⟩))

/-- The batch loop of parse_cal10k: process_track is called with no
try/except, so the first exception aborts the whole run. -/
def parse_cal10k (songs : List Track) :
    Except PyError (List (FileMetadata × List (Observation String))) :=
  match songs with
  | [] => .ok []
  | s :: rest =>
    match process_track s with
    | .ok jam => (parse_cal10k rest).map (fun js => jam :: js)
    | .error e => .error e

end Cal10k

/-! ## RWC-POP melody converter (rwcpopmelody_parser.py) -/

namespace Rwc

/-- track_text in create_jams: the name of each MIDI track, lower-cased
with whitespace removed, truncated to its first four characters. -/
def track_text (tracks : List String) : List String :=
  tracks.map (fun t => pyTake 4 (pyLowerNoSpace t))

/-- The melody-track selector of create_jams: the index of the first
track whose truncated normalized name is "melo", else of the first with
"voca", else none (the ABORTING TRACK branch). -/
def select_melody_track (tracks : List String) : Option Nat :=
  let tt := track_text tracks
  if "melo" ∈ tt then some (tt.indexOf "melo")
  else if "voca" ∈ tt then some (tt.indexOf "voca")
  else none

/-- The selector as the specification words it: the first MIDI track
whose lower-cased, space-free name starts with "melo"; if none, the first
whose name starts with "voca"; else none. -/
def select_melody_track_spec (tracks : List String) : Option Nat :=
  match tracks.findIdx? (fun t => "melo".data.isPrefixOf (pyLowerNoSpace t).data) with
  | some i => some i
  | none => tracks.findIdx? (fun t => "voca".data.isPrefixOf (pyLowerNoSpace t).data)

/-- One pretty_midi note of the selected melody track. -/
structure Note where
  start : ℚ
  stop : ℚ
  pitch : ℤ
deriving DecidableEq

/-- create_jams for one SMF file, given the names of its MIDI tracks, the
notes of each track, and the metadata row (artist, title and the Length
column already split into minutes and seconds).  none models the
ABORTING TRACK branch: no output file is produced; otherwise the written
jam holds the pitch_midi observations of the selected track's notes, each
with confidence 1, and the metadata with duration minutes*60+seconds. -/
def create_jams (tracks : List String) (notesOf : Nat → List Note)
    (artist title : String) (mm ss : ℚ) :
    Option (FileMetadata × List (Observation ℤ)) :=
  (select_melody_track tracks).map (fun i =>
    ({ title := title, artist := artist, duration := some (mm * 60 + ss) },
      (notesOf i).map (fun n => ⟨n.start, n.stop - n.start, n.pitch, some 1⟩)))

end Rwc

/-! ## HEMAN converter (heman_parser.py) -/

namespace Heman

/-- create_jams: the metadata of a HEMAN jam; all data is symbolic, so
duration is fixed to 1 and the artist is left empty (a TODO in the
source). -/
def create_jams_meta (song_title : String) : FileMetadata :=
  { title := song_title, artist := "", duration := some 1 }

/-- The value dictionary of one pattern observation. -/
structure PatternVal where
  pattern_id : Nat
  midi_pitch : ℤ
  morph_pitch : ℤ
  staff : Nat
  occurrence_id : Nat
deriving DecidableEq

/-- One observation appended by create_annotation: onset time, the fixed
duration 1, the pattern value, and the annotation confidence. -/
def observation (onset : ℚ) (pitch : ℤ) (pattern_id : Nat) (conf : ℚ) :
    Observation PatternVal :=
  ⟨onset, 1, ⟨pattern_id, pitch, pitch, 1, 1⟩, some conf⟩

end Heman

/-! ## MedleyDB converter (medleydb_parser.py) -/

namespace Medleydb

/-- fill_file_metadata: artist, title and duration from the track's
YAML metadata and the last annotation's duration. -/
def fill_file_metadata (artist title : String) (duration : ℚ) :
    FileMetadata :=
  { title := title, artist := artist, duration := some duration }

/-- The genre observation of fill_genre_annotation. -/
def genre_observation (genre : String) : Observation String :=
  ⟨0, 0, genre, none⟩

/-- One melody observation of fill_melody_annotation: a (time, value) CSV
row with duration 0 and confidence null. -/
def melody_observation (t v : ℚ) : Observation ℚ :=
  ⟨t, 0, v, none⟩

/-- One instrument-activation observation of fill_instid_annotation. -/
def instid_observation (start_time end_time : ℚ) (label : String) :
    Observation String :=
  ⟨start_time, end_time - start_time, label, none⟩

end Medleydb

/-! ## Generic MIDI converter (midi_parser.py) -/

namespace Midi

/-- Python slicing s[0 : len - n], dropping the last n characters. -/
def pyDropRight (n : Nat) (s : String) : String :=
  String.mk (s.data.take (s.data.length - n))

/-- fill_file_metadata: the title is the MIDI file's basename without its
4-character extension and the duration is pretty_midi's end time; the
artist field is never assigned, so it keeps the library default. -/
def fill_file_metadata (midi_file : String) (duration : ℚ) : FileMetadata :=
  { title := pyDropRight 4 (pyBasename midi_file), duration := some duration }

/-- One pitch_midi observation of create_jams, with confidence 1. -/
def note_observation (n : Rwc.Note) : Observation ℤ :=
  ⟨n.start, n.stop - n.start, n.pitch, some 1⟩

end Midi

/-! ## MIREX05 melody converter (mirex05melody_parser.py) -/

namespace Mirex05

/-- Fuel-bounded replacement of every occurrence of "REF.txt" by the
empty string (Python str.replace); the fuel is the character count, which
bounds the number of steps. -/
def replaceRefAux : Nat → List Char → List Char
  | 0, l => l
  | _ + 1, [] => []
  | fuel + 1, c :: rest =>
    if "REF.txt".data.isPrefixOf (c :: rest) then
      replaceRefAux fuel ((c :: rest).drop 7)
    else c :: replaceRefAux fuel rest

/-- Python basename(lab_file).replace("REF.txt", ""). -/
def pyReplaceRef (s : String) : String :=
  String.mk (replaceRefAux s.data.length s.data)

/-- fill_file_metadata: empty artist, the title derived from the lab
file's basename, and the audio file's duration. -/
def fill_file_metadata (lab_file : String) (duration : ℚ) : FileMetadata :=
  { title := pyReplaceRef (pyBasename lab_file), artist := "",
    duration := some duration }

end Mirex05

/-! ## The eight CLIs

Each converter script declares its command line with argparse; the
declarations are transcribed here: the positional arguments in order, and
the option flags with what they control (an output directory, output
compression, or a parallel job count). -/

/-- What an option flag of a converter CLI controls. -/
inductive FlagKind
  | outputDir
  | compression
  | parallelism
deriving DecidableEq

/-- The argparse declaration of one converter script. -/
structure CLI where
  positionals : List String
  flags : List (String × FlagKind)
deriving DecidableEq

/-- cal500_parser.py: input_dir, output_dir, and the -z compression flag. -/
def cal500_cli : CLI := ⟨["input_dir", "output_dir"], [("-z", .compression)]⟩

/-- cal10k_parser.py: input_dir, output_dir, and the -z compression flag. -/
def cal10k_cli : CLI := ⟨["input_dir", "output_dir"], [("-z", .compression)]⟩

/-- heman_parser.py: in_dir and out_dir. -/
def heman_cli : CLI := ⟨["in_dir", "out_dir"], []⟩

/-- medleydb_parser.py: in_dir, and -o for the output folder. -/
def medleydb_cli : CLI := ⟨["in_dir"], [("-o", .outputDir)]⟩

/-- midi_parser.py: midi_dir, and -o for the output folder. -/
def midi_cli : CLI := ⟨["midi_dir"], [("-o", .outputDir)]⟩

/-- mirex05melody_parser.py: in_dir, and -o for the output folder. -/
def mirex05melody_cli : CLI := ⟨["in_dir"], [("-o", .outputDir)]⟩

/-- rwcpopmelody_parser.py: audio_dir, smf_dir, and -o for the output
folder. -/
def rwcpopmelody_cli : CLI := ⟨["audio_dir", "smf_dir"], [("-o", .outputDir)]⟩

/-- salami_parser.py: in_dir, out_dir, and -j for the CPU count. -/
def salami_cli : CLI := ⟨["in_dir", "out_dir"], [("-j", .parallelism)]⟩

/-- The eight converter CLIs. -/
def all_clis : List CLI :=
  [cal500_cli, cal10k_cli, heman_cli, medleydb_cli, midi_cli,
   mirex05melody_cli, rwcpopmelody_cli, salami_cli]

/-- A CLI takes an input directory and an output directory when it has at
least one positional argument and provides the output directory either as
a second positional or through an option flag. -/
def takes_in_out (c : CLI) : Bool :=
  decide (1 ≤ c.positionals.length) &&
    (decide (2 ≤ c.positionals.length) ||
      c.flags.any (fun f => f.2 == FlagKind.outputDir))

/-- A CLI additionally takes a compression or parallelism flag. -/
def has_comp_or_par (c : CLI) : Bool :=
  c.flags.any (fun f => f.2 == FlagKind.compression || f.2 == FlagKind.parallelism)

/-! ## Concrete inputs used to separate the code from claimed behaviour -/

namespace Salami

/-- A per-row outcome for the parallelism analysis in which every track
completes and is written: its global metadata is filled from the row as
fill_global_metadata does, so rows that differ in their title column
produce different jams. -/
def row_jam (md : List String) : Except PyError (Option Jam) :=
  .ok ((fill_global_metadata md 0).map (fun meta => ⟨meta, []⟩))

/-- A per-row outcome with one raising row: a row with song id "9" models
a track whose annotation directory exists but yields no annotation data,
for which create_JAMS raises the uncaught np.max ValueError; every other
row completes and is written. -/
def row_jam_raising (md : List String) : Except PyError (Option Jam) :=
  if md.headD "" = "9" then .error .valueError else row_jam md

/-- A metadata table whose two data rows share the song id "3" but differ
in the title column: both tracks are written to the same output path
3.jams. -/
def dup_rows : List (List String) :=
  [["SONG_ID", "", "", "", "", "", "", "HEADER", "HEADER"],
   ["3", "", "", "", "", "", "", "Song One", "Artist One"],
   ["3", "", "", "", "", "", "", "Song Two", "Artist Two"]]

/-- A metadata table with three pairwise distinct song ids whose middle
row, processed with row_jam_raising, raises. -/
def distinct_rows : List (List String) :=
  [["1", "", "", "", "", "", "", "Song One", "Artist One"],
   ["9", "", "", "", "", "", "", "Song Nine", "Artist Nine"],
   ["2", "", "", "", "", "", "", "Song Two", "Artist Two"]]

end Salami

/-! ## Helper lemmas -/

/-- ASCII lowering is idempotent: lowering an already lowered character
changes nothing. -/
theorem char_toLower_idem (c : Char) : c.toLower.toLower = c.toLower := by
  unfold Char.toLower
  by_cases h : c.toNat ≥ 65 ∧ c.toNat ≤ 90
  · rw [if_pos h]
    have hv : Nat.isValidChar (c.toNat + 32) := Or.inl (by omega)
    have ht : (Char.ofNat (c.toNat + 32)).toNat = c.toNat + 32 := by
      rw [Char.ofNat, dif_pos hv]
      simp [Char.ofNatAux, Char.toNat, UInt32.toNat, BitVec.toNat_ofNatLt]
    rw [if_neg (by omega)]
  · rw [if_neg h, if_neg h]

/-- Python lowering is idempotent string-wise. -/
theorem pyLower_idem (s : String) : pyLower (pyLower s) = pyLower s := by
  unfold pyLower
  simp [List.map_map, Function.comp_def, char_toLower_idem]

/-- A lookup hit in an association list is a member of the list. -/
theorem mem_of_lookup_eq_some {l : List (String × String)} {k v : String}
    (h : l.lookup k = some v) : (k, v) ∈ l := by
  induction l with
  | nil => simp [List.lookup] at h
  | cons p rest ih =>
    obtain ⟨p1, p2⟩ := p
    rw [List.lookup] at h
    by_cases hk : k = p1
    · rw [show (k == p1) = true from beq_iff_eq.mpr hk] at h
      simp only [Option.some.injEq] at h
      subst hk
      subst h
      exact List.mem_cons_self _ _
    · rw [show (k == p1) = false from beq_eq_false_iff_ne.mpr hk] at h
      exact List.mem_cons_of_mem _ (ih h)

/-- Every value of labels_map is a fixed point of fix_label: the values
are lower-case and none of them is a key of the map. -/
theorem labels_map_values_fixed :
    ∀ p ∈ Salami.labels_map, Salami.fix_label p.2 = p.2 := by decide

/-! ## Claim C8 -/

/-- C8: the SALAMI label fixer fix_label is idempotent: for every string
s, fix_label (fix_label s) = fix_label s, because every value of the
label-remapping dictionary is already lower-case and is not itself a key
of the dictionary. -/
theorem C8_fix_label_idempotent (s : String) :
    Salami.fix_label (Salami.fix_label s) = Salami.fix_label s := by
  cases h : Salami.labels_map.lookup (pyLower s) with
  | none =>
    have h1 : Salami.fix_label s = pyLower s := by
      simp [Salami.fix_label, h]
    rw [h1]
    simp [Salami.fix_label, pyLower_idem, h]
  | some v =>
    have h1 : Salami.fix_label s = v := by
      simp [Salami.fix_label, h]
    rw [h1]
    exact labels_map_values_fixed _ (mem_of_lookup_eq_some h)

/-! ## Claim C3 -/

/-- C3 counterexample: at function level the extractor strips surrounding
whitespace before lower-casing and remapping, so on the row (0, "A, verse")
with enum containing "verse" the code includes the pair (0, "verse") while
the claimed rule (lower-case and remap only) includes nothing: the split
token is " verse" with its leading space. -/
theorem C3_counterexample :
    Salami.get_level_segments ⟨["verse"], fun _ => false, fun _ => false⟩
        [((0 : ℚ), "A, verse")] .function ≠
      Salami.get_level_segments_claimed ⟨["verse"], fun _ => false, fun _ => false⟩
        [((0 : ℚ), "A, verse")] .function := by decide

/-- C3 (amended): get_level_segments includes, for level upper or lower,
exactly the pairs (time, label) whose comma-separated label matches the
namespace pattern, and for level function exactly the pairs whose label,
after stripping surrounding whitespace, lower-casing and remapping through
the label-remapping dictionary, is in the allowed function enum (the pair
carrying the remapped label). -/
theorem C3_get_level_segments_characterized (sch : Salami.Schema)
    (df : List (ℚ × String)) (t : ℚ) (l : String) :
    ((t, l) ∈ Salami.get_level_segments sch df .upper ↔
      ∃ row ∈ df, t = row.1 ∧ l ∈ pySplitComma row.2 ∧ sch.upperPat l = true) ∧
    ((t, l) ∈ Salami.get_level_segments sch df .lower ↔
      ∃ row ∈ df, t = row.1 ∧ l ∈ pySplitComma row.2 ∧ sch.lowerPat l = true) ∧
    ((t, l) ∈ Salami.get_level_segments sch df .function ↔
      ∃ row ∈ df, ∃ lab ∈ pySplitComma row.2,
        t = row.1 ∧ l = Salami.fix_label (pyStrip lab) ∧ l ∈ sch.functionEnum) := by
  refine ⟨?_, ?_, ?_⟩
  · simp only [Salami.get_level_segments, List.mem_flatMap, List.mem_filterMap]
    constructor
    · rintro ⟨row, hrow, lab, hlab, heq⟩
      by_cases hp : sch.upperPat lab
      · rw [if_pos hp] at heq
        obtain ⟨h1, h2⟩ := Prod.mk.injEq .. ▸ Option.some.inj heq
        subst h1
        subst h2
        exact ⟨row, hrow, rfl, hlab, hp⟩
      · rw [if_neg hp] at heq
        exact absurd heq (by simp)
    · rintro ⟨row, hrow, ht, hl, hp⟩
      subst ht
      exact ⟨row, hrow, l, hl, by rw [if_pos hp]⟩
  · simp only [Salami.get_level_segments, List.mem_flatMap, List.mem_filterMap]
    constructor
    · rintro ⟨row, hrow, lab, hlab, heq⟩
      by_cases hp : sch.lowerPat lab
      · rw [if_pos hp] at heq
        obtain ⟨h1, h2⟩ := Prod.mk.injEq .. ▸ Option.some.inj heq
        subst h1
        subst h2
        exact ⟨row, hrow, rfl, hlab, hp⟩
      · rw [if_neg hp] at heq
        exact absurd heq (by simp)
    · rintro ⟨row, hrow, ht, hl, hp⟩
      subst ht
      exact ⟨row, hrow, l, hl, by rw [if_pos hp]⟩
  · simp only [Salami.get_level_segments, List.mem_flatMap, List.mem_filterMap]
    constructor
    · rintro ⟨row, hrow, lab, hlab, heq⟩
      by_cases hp : Salami.fix_label (pyStrip lab) ∈ sch.functionEnum
      · rw [if_pos hp] at heq
        obtain ⟨h1, h2⟩ := Prod.mk.injEq .. ▸ Option.some.inj heq
        subst h1
        subst h2
        exact ⟨row, hrow, lab, hlab, rfl, rfl, hp⟩
      · rw [if_neg hp] at heq
        exact absurd heq (by simp)
    · rintro ⟨row, hrow, lab, hlab, ht, hl, hp⟩
      subst ht
      subst hl
      exact ⟨row, hrow, lab, hlab, by rw [if_pos hp]⟩

section RatReduction

attribute [local semireducible] Rat.sub Rat.add

/-! ## Claim C9 -/

/-- C9: every annotation the SALAMI converter appends is non-empty
(annotations with zero observations are discarded), and every observation
in it has strictly positive duration: a consecutive pair of extracted
boundaries whose time difference is zero or negative produces no
observation. -/
theorem C9_annotations_nonempty_positive (sch : Salami.Schema)
    (df? : Option (List (ℚ × String))) :
    ∀ ann ∈ Salami.create_annotations sch df?,
      ann.data ≠ [] ∧ ∀ o ∈ ann.data, 0 < o.duration := by
  intro ann hann
  cases df? with
  | none => simp [Salami.create_annotations] at hann
  | some df =>
    simp only [Salami.create_annotations, List.mem_filterMap] at hann
    obtain ⟨level, hlev, heq⟩ := hann
    by_cases h :
        (Salami.make_observations (Salami.get_level_segments sch df level)).length > 0
    · rw [if_pos h] at heq
      obtain rfl := Option.some.inj heq
      refine ⟨List.ne_nil_of_length_pos h, ?_⟩
      intro o ho
      simp only [Salami.make_observations, List.mem_filterMap] at ho
      obtain ⟨p, hp, hpe⟩ := ho
      by_cases hd : p.2.1 - p.1.1 ≤ 0
      · rw [if_pos hd] at hpe
        exact absurd hpe (by simp)
      · rw [if_neg hd] at hpe
        obtain rfl := Option.some.inj hpe
        exact lt_of_not_le hd
    · rw [if_neg h] at heq
      exact absurd heq (by simp)

/-- C9 witness: on the boundary table [(0, "verse"), (5, "verse")] the
function level yields one non-empty annotation whose single observation
has duration 5. -/
theorem C9_witness :
    (Salami.Annotation.mk "segment_salami_function"
        [⟨0, 5, "verse", none⟩] ∈
      Salami.create_annotations ⟨["verse"], fun _ => false, fun _ => false⟩
        (some [((0 : ℚ), "verse"), (5, "verse")])) ∧
    (Salami.Annotation.mk "segment_salami_function"
        [⟨0, 5, "verse", none⟩]).data ≠ [] ∧
    ∀ o ∈ (Salami.Annotation.mk "segment_salami_function"
        [⟨0, 5, "verse", none⟩]).data, 0 < o.duration := by
  have hm : Salami.Annotation.mk "segment_salami_function"
      [⟨0, 5, "verse", none⟩] ∈
      Salami.create_annotations ⟨["verse"], fun _ => false, fun _ => false⟩
        (some [((0 : ℚ), "verse"), (5, "verse")]) := by
    rw [show Salami.create_annotations ⟨["verse"], fun _ => false, fun _ => false⟩
        (some [((0 : ℚ), "verse"), (5, "verse")]) =
      [Salami.Annotation.mk "segment_salami_function"
        [⟨0, 5, "verse", none⟩]] from by decide]
    exact List.mem_cons_self _ _
  exact ⟨hm, C9_annotations_nonempty_positive _ _ _ hm⟩

/-! ## Claim C10 -/

/-- A left fold of max is at least its seed. -/
theorem le_foldl_max (xs : List ℚ) (a : ℚ) : a ≤ xs.foldl max a := by
  induction xs generalizing a with
  | nil => exact le_refl a
  | cons y ys ih => exact le_trans (le_max_left a y) (ih (max a y))

/-- A left fold of max bounds every list element. -/
theorem foldl_max_le_of_mem {xs : List ℚ} {x : ℚ} (hx : x ∈ xs) (a : ℚ) :
    x ≤ xs.foldl max a := by
  induction xs generalizing a with
  | nil => cases hx
  | cons y ys ih =>
    rcases List.mem_cons.mp hx with rfl | h
    · exact le_trans (le_max_right a x) (le_foldl_max ys (max a x))
    · exact ih h (max a y)

/-- A left fold of max is its seed or one of the list elements. -/
theorem foldl_max_mem (xs : List ℚ) (a : ℚ) :
    xs.foldl max a = a ∨ xs.foldl max a ∈ xs := by
  induction xs generalizing a with
  | nil => left; rfl
  | cons y ys ih =>
    rcases ih (max a y) with h | h
    · rcases max_choice a y with hm | hm
      · left
        rw [List.foldl_cons, h, hm]
      · right
        rw [List.foldl_cons, h, hm]
        exact List.mem_cons_self _ _
    · right
      exact List.mem_cons_of_mem _ (by rw [List.foldl_cons]; exact h)

/-- np_max computes an attained upper bound of its input list. -/
theorem np_max_spec {xs : List ℚ} {q : ℚ} (h : Salami.np_max xs = some q) :
    q ∈ xs ∧ ∀ x ∈ xs, x ≤ q := by
  cases xs with
  | nil => simp [Salami.np_max] at h
  | cons x ys =>
    have hq : ys.foldl max x = q := by
      simpa [Salami.np_max] using h
    subst hq
    constructor
    · rcases foldl_max_mem ys x with h1 | h1
      · rw [h1]
        exact List.mem_cons_self _ _
      · exact List.mem_cons_of_mem _ h1
    · intro z hz
      rcases List.mem_cons.mp hz with rfl | hz'
      · exact le_foldl_max ys z
      · exact foldl_max_le_of_mem hz' x

/-- np_max succeeds exactly on non-empty lists. -/
theorem np_max_isSome (xs : List ℚ) : (Salami.np_max xs).isSome ↔ xs ≠ [] := by
  cases xs <;> simp [Salami.np_max]

/-- all_last_boundaries succeeds on a list of non-empty annotations,
producing one boundary per annotation. -/
theorem alb_some_of_nonempty {anns : List Salami.Annotation}
    (h : ∀ a ∈ anns, a.data ≠ []) :
    ∃ ds, Salami.all_last_boundaries anns = some ds ∧ ds.length = anns.length := by
  induction anns with
  | nil => exact ⟨[], rfl, rfl⟩
  | cons a rest ih =>
    obtain ⟨ds, hds, hlen⟩ := ih (fun b hb => h b (List.mem_cons_of_mem _ hb))
    have ha : ∃ d, Salami.last_boundary a = some d := by
      rw [Salami.last_boundary]
      have hne := h a (List.mem_cons_self _ _)
      obtain ⟨o, ho⟩ := Option.isSome_iff_exists.mp (List.getLast?_isSome.mpr hne)
      exact ⟨o.time + o.duration, by rw [ho]; rfl⟩
    obtain ⟨d, hd⟩ := ha
    refine ⟨d :: ds, ?_, by simp [hlen]⟩
    rw [Salami.all_last_boundaries, hd, hds]

/-- The boundaries collected by all_last_boundaries are exactly the
per-annotation last boundaries. -/
theorem alb_mem {anns : List Salami.Annotation} {ds : List ℚ}
    (h : Salami.all_last_boundaries anns = some ds) :
    (∀ d ∈ ds, ∃ a ∈ anns, Salami.last_boundary a = some d) ∧
    (∀ a ∈ anns, ∀ v, Salami.last_boundary a = some v → v ∈ ds) := by
  induction anns generalizing ds with
  | nil =>
    obtain rfl : ([] : List ℚ) = ds := by simpa [Salami.all_last_boundaries] using h
    exact ⟨by simp, by simp⟩
  | cons a rest ih =>
    rw [Salami.all_last_boundaries] at h
    cases ha : Salami.last_boundary a with
    | none => rw [ha] at h; cases h
    | some d =>
      rw [ha] at h
      cases hr : Salami.all_last_boundaries rest with
      | none => rw [hr] at h; cases h
      | some ds' =>
        rw [hr] at h
        obtain rfl : d :: ds' = ds := Option.some.inj h
        obtain ⟨ih1, ih2⟩ := ih hr
        constructor
        · intro e he
          rcases List.mem_cons.mp he with rfl | he'
          · exact ⟨a, List.mem_cons_self _ _, ha⟩
          · obtain ⟨b, hb, hbe⟩ := ih1 e he'
            exact ⟨b, List.mem_cons_of_mem _ hb, hbe⟩
        · intro b hb v hv
          rcases List.mem_cons.mp hb with rfl | hb'
          · rw [hv] at ha
            rw [Option.some.inj ha]
            exact List.mem_cons_self _ _
          · exact List.mem_cons_of_mem _ (ih2 b hb' v hv)

/-- C10: get_duration returns the maximum over all annotations of the
last observation's time plus duration; it is defined only when the jam
holds at least one (non-empty) annotation, and create_JAMS fails with the
uncaught np.max exception (rather than skipping or writing a file) for a
track whose annotation directory exists but yields no annotation data. -/
theorem C10_get_duration_max (anns : List Salami.Annotation)
    (sch : Salami.Schema) (md : List String)
    (files : List (Option (List (ℚ × String)))) :
    ((∀ a ∈ anns, a.data ≠ []) →
      ((Salami.get_duration anns).isSome ↔ anns ≠ [])) ∧
    (∀ q, Salami.get_duration anns = some q →
      (∃ a ∈ anns, Salami.last_boundary a = some q) ∧
      ∀ a ∈ anns, ∀ v, Salami.last_boundary a = some v → v ≤ q) ∧
    (files.flatMap (Salami.create_annotations sch) = [] →
      Salami.create_JAMS sch md true files = .error .valueError) := by
  refine ⟨?_, ?_, ?_⟩
  · intro hne
    constructor
    · intro hsome hnil
      subst hnil
      simp [Salami.get_duration, Salami.all_last_boundaries, Salami.np_max] at hsome
    · intro hanns
      obtain ⟨ds, hds, hlen⟩ := alb_some_of_nonempty hne
      rw [Salami.get_duration, hds, Option.some_bind]
      refine (np_max_isSome ds).mpr ?_
      intro hnil
      rw [hnil] at hlen
      exact hanns (List.eq_nil_of_length_eq_zero hlen.symm)
  · intro q hq
    rw [Salami.get_duration] at hq
    cases hds : Salami.all_last_boundaries anns with
    | none => rw [hds] at hq; cases hq
    | some ds =>
      rw [hds, Option.some_bind] at hq
      obtain ⟨hqmem, hqle⟩ := np_max_spec hq
      obtain ⟨hmem1, hmem2⟩ := alb_mem hds
      exact ⟨hmem1 q hqmem, fun a ha v hv => hqle v (hmem2 a ha v hv)⟩
  · intro hflat
    simp [Salami.create_JAMS, hflat, Salami.get_duration,
      Salami.all_last_boundaries, Salami.np_max]

/-- C10 witness: a jam with one non-empty annotation has a defined
duration, and a track whose annotation directory exists but whose three
candidate annotation files are all missing makes create_JAMS raise. -/
theorem C10_witness :
    ((Salami.get_duration
        [Salami.Annotation.mk "segment_salami_function"
          [⟨0, 5, "verse", none⟩]]).isSome ↔
      ([Salami.Annotation.mk "segment_salami_function"
          [⟨0, 5, "verse", none⟩]] : List Salami.Annotation) ≠ []) ∧
    Salami.create_JAMS ⟨["verse"], fun _ => false, fun _ => false⟩ [] true
        [none, none, none] = .error .valueError :=
  ⟨(C10_get_duration_max
      [Salami.Annotation.mk "segment_salami_function" [⟨0, 5, "verse", none⟩]]
      ⟨["verse"], fun _ => false, fun _ => false⟩ [] [none, none, none]).1
      (by decide),
    (C10_get_duration_max []
      ⟨["verse"], fun _ => false, fun _ => false⟩ [] [none, none, none]).2.2
      (by decide)⟩

/-! ## Claim C1 -/

/-- C1 counterexample: parse_cal10k has no per-track try/except, so a
batch whose second track's audio file is missing aborts with the IOError
instead of skipping that track and processing the third one. -/
theorem C1_counterexample :
    Cal10k.parse_cal10k
      [⟨"ArtistA", "TitleA", "a.mp3", some 3, ["rock"]⟩,
       ⟨"ArtistB", "TitleB", "b.mp3", none, []⟩,
       ⟨"ArtistC", "TitleC", "c.mp3", some 2, ["jazz"]⟩] = .error .ioError := rfl

/-- C1 (amended): the CAL500 converter wraps per-track processing in a
try/except for IOError and so skips tracks with missing files and
continues (producing exactly the outputs of the readable tracks, in
order); the CAL10K converter has no per-track guard, so its batch run
completes exactly when every track's file is readable. -/
theorem C1_skip_and_continue (songs : List Cal500.Track)
    (songs10 : List Cal10k.Track) :
    ((∀ s ∈ songs, (pySplitOnceDash s.name).isSome) →
      Cal500.parse_cal500 songs =
        .ok (songs.filterMap (fun s => (Cal500.process_track s).toOption))) ∧
    ((∃ l, Cal10k.parse_cal10k songs10 = .ok l) ↔
      ∀ s ∈ songs10, s.dur.isSome) := by
  constructor
  · intro hsplit
    induction songs with
    | nil => rfl
    | cons s rest ih =>
      have ihr := ih (fun t ht => hsplit t (List.mem_cons_of_mem _ ht))
      cases hd : s.dur with
      | none =>
        simp [Cal500.parse_cal500, Cal500.process_track, hd, ihr, Except.toOption]
      | some d =>
        obtain ⟨p, hp⟩ := Option.isSome_iff_exists.mp
          (hsplit s (List.mem_cons_self _ _))
        simp [Cal500.parse_cal500, Cal500.process_track, hd, hp, ihr,
          Except.toOption, Except.map]
  · induction songs10 with
    | nil => simp [Cal10k.parse_cal10k]
    | cons s rest ih =>
      cases hd : s.dur with
      | none =>
        simp [Cal10k.parse_cal10k, Cal10k.process_track, hd]
      | some d =>
        constructor
        · rintro ⟨l, hl⟩
          rw [Cal10k.parse_cal10k] at hl
          rw [show Cal10k.process_track s =
              .ok ({ title := s.title, artist := s.artist, duration := some d },
                s.tags.map (fun tag => ⟨0, d, tag, none⟩))
            from by rw [Cal10k.process_track, hd]] at hl
          intro t ht
          rcases List.mem_cons.mp ht with rfl | ht'
          · simp [hd]
          · cases hr : Cal10k.parse_cal10k rest with
            | error e => rw [hr] at hl; cases hl
            | ok l' => exact (ih.mp ⟨l', hr⟩) t ht'
        · intro hall
          obtain ⟨l', hl'⟩ := ih.mpr (fun t ht => hall t (List.mem_cons_of_mem _ ht))
          refine ⟨({ title := s.title, artist := s.artist, duration := some d },
              s.tags.map (fun tag => ⟨0, d, tag, none⟩)) :: l', ?_⟩
          rw [Cal10k.parse_cal10k]
          rw [show Cal10k.process_track s =
              .ok ({ title := s.title, artist := s.artist, duration := some d },
                s.tags.map (fun tag => ⟨0, d, tag, none⟩))
            from by rw [Cal10k.process_track, hd]]
          rw [hl']
          rfl

/-- C1 witness: a CAL500 batch with a readable first track and a missing
second one completes, skipping exactly the missing track; a CAL10K batch
of one readable track completes. -/
theorem C1_witness :
    (∀ s ∈ ([⟨"A-X", some 2, [("rock", 1)]⟩, ⟨"B-Y", none, []⟩] :
        List Cal500.Track), (pySplitOnceDash s.name).isSome) ∧
    Cal500.parse_cal500 [⟨"A-X", some 2, [("rock", 1)]⟩, ⟨"B-Y", none, []⟩] =
      .ok (([⟨"A-X", some 2, [("rock", 1)]⟩, ⟨"B-Y", none, []⟩] :
        List Cal500.Track).filterMap
          (fun s => (Cal500.process_track s).toOption)) ∧
    ((∃ l, Cal10k.parse_cal10k [⟨"A", "T", "a.mp3", some 3, ["rock"]⟩] = .ok l) ↔
      ∀ s ∈ ([⟨"A", "T", "a.mp3", some 3, ["rock"]⟩] : List Cal10k.Track),
        s.dur.isSome) :=
  ⟨by decide,
    (C1_skip_and_continue [⟨"A-X", some 2, [("rock", 1)]⟩, ⟨"B-Y", none, []⟩]
      [⟨"A", "T", "a.mp3", some 3, ["rock"]⟩]).1 (by decide),
    (C1_skip_and_continue [⟨"A-X", some 2, [("rock", 1)]⟩, ⟨"B-Y", none, []⟩]
      [⟨"A", "T", "a.mp3", some 3, ["rock"]⟩]).2⟩

/-! ## Claim C4 -/

/-- Matching a 4-character list as a 4-character truncation is the same
as matching it as a prefix. -/
theorem take4_eq_iff {x m : List Char} (hm : m.length = 4) :
    (x.take 4 = m) ↔ m <+: x := by
  rw [List.prefix_iff_eq_take, ← hm]
  exact eq_comm

/-- The guarded index lookup over the truncated track names equals the
first-index search for the corresponding name prefix. -/
theorem select_eq_findIdx (tracks : List String) (m : String)
    (hm : m.data.length = 4) :
    (if m ∈ Rwc.track_text tracks then
        some ((Rwc.track_text tracks).indexOf m) else none) =
      tracks.findIdx? (fun t => m.data.isPrefixOf (pyLowerNoSpace t).data) := by
  induction tracks with
  | nil => simp [Rwc.track_text]
  | cons t ts ih =>
    have hbm : (pyTake 4 (pyLowerNoSpace t) = m) ↔
        (m.data.isPrefixOf (pyLowerNoSpace t).data = true) := by
      rw [List.isPrefixOf_iff_prefix, ← take4_eq_iff hm]
      constructor
      · intro h
        rw [← h]
        rfl
      · intro h
        rw [show pyTake 4 (pyLowerNoSpace t) =
          String.mk ((pyLowerNoSpace t).data.take 4) from rfl, h]
    have htt : Rwc.track_text (t :: ts) =
        pyTake 4 (pyLowerNoSpace t) :: Rwc.track_text ts := rfl
    rw [htt, List.findIdx?_cons, List.findIdx?_succ]
    by_cases hb : m.data.isPrefixOf (pyLowerNoSpace t).data
    · rw [if_pos hb]
      have hbt : pyTake 4 (pyLowerNoSpace t) = m := hbm.mpr hb
      rw [hbt]
      rw [if_pos (List.mem_cons_self _ _), List.indexOf_cons_self]
    · rw [if_neg hb]
      have hne : pyTake 4 (pyLowerNoSpace t) ≠ m := fun h => hb (hbm.mp h)
      rw [← ih]
      by_cases hmem : m ∈ Rwc.track_text ts
      · rw [if_pos hmem, if_pos (List.mem_cons_of_mem _ hmem),
          List.indexOf_cons_ne _ hne]
        rfl
      · rw [if_neg hmem, if_neg (fun hc => hmem (by
          rcases List.mem_cons.mp hc with h | h
          · exact absurd h.symm hne
          · exact h))]
        rfl

/-- C4: the RWC-POP melody selector picks the first MIDI track whose
name, lower-cased with spaces removed, starts with "melo"; if none
exists, the first whose name starts with "voca"; and if neither exists
create_jams aborts the track, producing no output file for it. -/
theorem C4_melody_track_selection (tracks : List String)
    (notesOf : Nat → List Rwc.Note) (artist title : String) (mm ss : ℚ) :
    Rwc.select_melody_track tracks = Rwc.select_melody_track_spec tracks ∧
    (Rwc.create_jams tracks notesOf artist title mm ss = none ↔
      Rwc.select_melody_track_spec tracks = none) := by
  have hmelo := select_eq_findIdx tracks "melo" (by decide)
  have hvoca := select_eq_findIdx tracks "voca" (by decide)
  have hsel : Rwc.select_melody_track tracks =
      Rwc.select_melody_track_spec tracks := by
    simp only [Rwc.select_melody_track, Rwc.select_melody_track_spec]
    rw [← hmelo, ← hvoca]
    by_cases h1 : "melo" ∈ Rwc.track_text tracks
    · simp [h1]
    · by_cases h2 : "voca" ∈ Rwc.track_text tracks
      · simp [h1, h2]
      · simp [h1, h2]
  refine ⟨hsel, ?_⟩
  rw [Rwc.create_jams, hsel, Option.map_eq_none']

/-! ## Claim C2 -/

/-- C2 counterexample: an RWC-POP SMF file none of whose tracks is named
with a "melo" or "voca" prefix is discovered but aborted: create_jams
writes no output file for it, so not every discovered track yields
exactly one serialized file. -/
theorem C2_counterexample :
    Rwc.create_jams ["RM-P001", "piano"] (fun _ => []) "Artist" "Title" 4 16 =
      none := by decide

/-- C2 (amended): every converter writes at most one serialized file per
discovered track: exactly one when per-track processing succeeds, and
none when the track is aborted (no melody track for RWC-POP, missing
annotation directory for SALAMI). -/
theorem C2_one_output_per_track (tracks : List String)
    (notesOf : Nat → List Rwc.Note) (artist title : String) (mm ss : ℚ)
    (sch : Salami.Schema) (md : List String) (pathExists : Bool)
    (files : List (Option (List (ℚ × String)))) :
    ((Rwc.create_jams tracks notesOf artist title mm ss).isSome ↔
      (Rwc.select_melody_track tracks).isSome) ∧
    Salami.create_JAMS sch md false files = .ok none ∧
    (∀ jam, Salami.create_JAMS sch md pathExists files = .ok (some jam) →
      pathExists = true ∧
      jam.annotations = files.flatMap (Salami.create_annotations sch)) := by
  refine ⟨?_, rfl, ?_⟩
  · simp [Rwc.create_jams]
  · intro jam h
    cases pathExists with
    | false => exact absurd h (by simp [Salami.create_JAMS])
    | true =>
      rw [Salami.create_JAMS] at h
      simp only [Bool.not_true, Bool.false_eq_true, if_false] at h
      refine ⟨rfl, ?_⟩
      split at h
      · cases h
      · split at h
        · cases h
        · obtain rfl := Option.some.inj (Except.ok.inj h)
          rfl

/-- C2 witness: a SALAMI track with an existing annotation directory and
one parsed annotation file is written as exactly one jam, whose
annotations are those extracted from the file. -/
theorem C2_witness :
    Salami.create_JAMS ⟨["verse"], fun _ => false, fun _ => false⟩
        ["3", "", "", "", "", "", "", "Song One", "Artist One"] true
        [some [((0 : ℚ), "verse"), (5, "verse")]] =
      .ok (some ⟨⟨"Song One", "Artist One", some 5⟩,
        [Salami.Annotation.mk "segment_salami_function"
          [⟨0, 5, "verse", none⟩]]⟩) ∧
    (true = true ∧
      (Salami.Jam.mk ⟨"Song One", "Artist One", some 5⟩
        [Salami.Annotation.mk "segment_salami_function"
          [⟨0, 5, "verse", none⟩]]).annotations =
      [some [((0 : ℚ), "verse"), (5, "verse")]].flatMap
        (Salami.create_annotations ⟨["verse"], fun _ => false, fun _ => false⟩)) := by
  have h : Salami.create_JAMS ⟨["verse"], fun _ => false, fun _ => false⟩
      ["3", "", "", "", "", "", "", "Song One", "Artist One"] true
      [some [((0 : ℚ), "verse"), (5, "verse")]] =
    .ok (some ⟨⟨"Song One", "Artist One", some 5⟩,
      [Salami.Annotation.mk "segment_salami_function"
        [⟨0, 5, "verse", none⟩]]⟩) := by rfl
  exact ⟨h, (C2_one_output_per_track [] (fun _ => []) "" "" 0 0
    ⟨["verse"], fun _ => false, fun _ => false⟩
    ["3", "", "", "", "", "", "", "Song One", "Artist One"] true
    [some [((0 : ℚ), "verse"), (5, "verse")]]).2.2 _ h⟩

/-! ## Claim C5 -/

/-- C5 counterexample: three of the eight converter CLIs, not two, take a
compression or parallelism flag (cal500 and cal10k take -z, salami takes
-j). -/
theorem C5_counterexample :
    ¬ ((all_clis.filter has_comp_or_par).length = 2) := by decide

/-- C5 (amended): every one of the eight converter scripts is a CLI
taking an input directory and an output directory (the latter positional
or as an -o flag), and exactly three of the eight additionally take a
compression or parallelism flag. -/
theorem C5_cli_flags :
    all_clis.length = 8 ∧ all_clis.all takes_in_out = true ∧
    (all_clis.filter has_comp_or_par).length = 3 := by decide

/-! ## Claim C6 -/

/-- C6: every output container constructed by a converter holds
file-level metadata with title, artist and duration (the duration always
assigned; the generic MIDI converter leaves artist at the library default
empty string), and every observation appended by any converter is a
(time, duration, value, confidence) quadruple with the documented
values. -/
theorem C6_metadata_and_observations :
    (∀ t : Cal500.Track, ∀ m obs, Cal500.process_track t = .ok (m, obs) →
      m.duration = t.dur ∧
      (∃ p, pySplitOnceDash t.name = some p ∧ m.title = p.2 ∧ m.artist = p.1) ∧
      ∀ o ∈ obs, o.time = 0 ∧ o.confidence.isSome) ∧
    (∀ t : Cal10k.Track, ∀ m obs, Cal10k.process_track t = .ok (m, obs) →
      m.title = t.title ∧ m.artist = t.artist ∧ m.duration = t.dur ∧
      ∀ o ∈ obs, o.time = 0 ∧ o.confidence = none) ∧
    (∀ md dur m, Salami.fill_global_metadata md dur = some m →
      md.get? 7 = some m.title ∧ md.get? 8 = some m.artist ∧
      m.duration = some dur) ∧
    (∀ segs, ∀ o ∈ Salami.make_observations segs, o.confidence = none) ∧
    (∀ title, Heman.create_jams_meta title = ⟨title, "", some 1⟩) ∧
    (∀ onset pitch pid conf,
      (Heman.observation onset pitch pid conf).confidence = some conf ∧
      (Heman.observation onset pitch pid conf).duration = 1) ∧
    (∀ a t d, Medleydb.fill_file_metadata a t d = ⟨t, a, some d⟩) ∧
    (∀ f d, (Midi.fill_file_metadata f d).artist = "" ∧
      (Midi.fill_file_metadata f d).duration = some d ∧
      (Midi.fill_file_metadata f d).title = Midi.pyDropRight 4 (pyBasename f)) ∧
    (∀ n, (Midi.note_observation n).confidence = some 1) ∧
    (∀ f d, (Mirex05.fill_file_metadata f d).artist = "" ∧
      (Mirex05.fill_file_metadata f d).duration = some d) ∧
    (∀ tracks notesOf artist title mm ss m obs,
      Rwc.create_jams tracks notesOf artist title mm ss = some (m, obs) →
      m = ⟨title, artist, some (mm * 60 + ss)⟩ ∧
      ∀ o ∈ obs, o.confidence = some 1) := by
  refine ⟨?_, ?_, ?_, ?_, fun _ => rfl, fun _ _ _ _ => ⟨rfl, rfl⟩,
    fun _ _ _ => rfl, fun _ _ => ⟨rfl, rfl, rfl⟩, fun _ => rfl,
    fun _ _ => ⟨rfl, rfl⟩, ?_⟩
  · intro t m obs h
    cases hd : t.dur with
    | none =>
      rw [Cal500.process_track, hd] at h
      cases h
    | some d =>
      rw [Cal500.process_track, hd] at h
      cases hp : pySplitOnceDash t.name with
      | none => rw [hp] at h; cases h
      | some p =>
        rw [hp] at h
        obtain ⟨hm, hobs⟩ := Prod.mk.injEq .. ▸ Except.ok.inj h
        subst hm
        subst hobs
        refine ⟨rfl, ⟨p, rfl, rfl, rfl⟩, ?_⟩
        intro o ho
        obtain ⟨tc, htc, rfl⟩ := List.mem_map.mp ho
        exact ⟨rfl, rfl⟩
  · intro t m obs h
    cases hd : t.dur with
    | none =>
      rw [Cal10k.process_track, hd] at h
      cases h
    | some d =>
      rw [Cal10k.process_track, hd] at h
      obtain ⟨hm, hobs⟩ := Prod.mk.injEq .. ▸ Except.ok.inj h
      subst hm
      subst hobs
      refine ⟨rfl, rfl, rfl, ?_⟩
      intro o ho
      obtain ⟨tag, htag, rfl⟩ := List.mem_map.mp ho
      exact ⟨rfl, rfl⟩
  · intro md dur m h
    rw [Salami.fill_global_metadata] at h
    split at h
    · rename_i tt aa ht ha
      obtain rfl := Option.some.inj h
      exact ⟨by rw [ht], by rw [ha], rfl⟩
    · cases h
  · intro segs o ho
    simp only [Salami.make_observations, List.mem_filterMap] at ho
    obtain ⟨p, hp, hpe⟩ := ho
    split at hpe
    · cases hpe
    · obtain rfl := Option.some.inj hpe
      rfl
  · intro tracks notesOf artist title mm ss m obs h
    rw [Rwc.create_jams] at h
    cases hs : Rwc.select_melody_track tracks with
    | none => rw [hs] at h; cases h
    | some i =>
      rw [hs] at h
      obtain ⟨hm, hobs⟩ := Prod.mk.injEq .. ▸ Option.some.inj h
      subst hm
      subst hobs
      refine ⟨rfl, ?_⟩
      intro o ho
      obtain ⟨n, hn, rfl⟩ := List.mem_map.mp ho
      rfl

/-- C6 witness: the conclusions instantiated on one concrete track per
converter family. -/
theorem C6_witness :
    Cal500.process_track ⟨"A-X", some 2, [("rock", 1)]⟩ =
      .ok (⟨"X", "A", some 2⟩, [⟨0, 2, "rock", some 1⟩]) ∧
    ((⟨"X", "A", some 2⟩ : FileMetadata).duration =
      (⟨"A-X", some 2, [("rock", 1)]⟩ : Cal500.Track).dur) ∧
    ((⟨0, 2, "rock", some 1⟩ : Observation String).time = 0 ∧
      (⟨0, 2, "rock", some 1⟩ : Observation String).confidence.isSome) ∧
    (Cal10k.process_track ⟨"A", "T", "f.mp3", some 3, ["rock"]⟩ =
      .ok (⟨"T", "A", some 3⟩, [⟨0, 3, "rock", none⟩]) ∧
      (⟨0, 3, "rock", none⟩ : Observation String).confidence = none) ∧
    (["", "", "", "", "", "", "", "T", "A"].get? 7 =
      some (⟨"T", "A", some 1⟩ : FileMetadata).title ∧
      ["", "", "", "", "", "", "", "T", "A"].get? 8 =
      some (⟨"T", "A", some 1⟩ : FileMetadata).artist) ∧
    (Rwc.create_jams ["melody"] (fun _ => [⟨0, 1, 60⟩]) "A" "T" 1 2 =
      some (⟨"T", "A", some (1 * 60 + 2)⟩, [⟨0, 1 - 0, 60, some 1⟩]) ∧
      (⟨0, 1 - 0, 60, some 1⟩ : Observation ℤ).confidence = some 1) := by
  have h1 : Cal500.process_track ⟨"A-X", some 2, [("rock", 1)]⟩ =
      .ok (⟨"X", "A", some 2⟩, [⟨0, 2, "rock", some 1⟩]) := rfl
  have h2 : Cal10k.process_track ⟨"A", "T", "f.mp3", some 3, ["rock"]⟩ =
      .ok (⟨"T", "A", some 3⟩, [⟨0, 3, "rock", none⟩]) := rfl
  have h3 : Salami.fill_global_metadata
      ["", "", "", "", "", "", "", "T", "A"] 1 =
      some ⟨"T", "A", some 1⟩ := rfl
  have h4 : Rwc.create_jams ["melody"] (fun _ => [⟨0, 1, 60⟩]) "A" "T" 1 2 =
      some (⟨"T", "A", some (1 * 60 + 2)⟩, [⟨0, 1 - 0, 60, some 1⟩]) := rfl
  refine ⟨h1, (C6_metadata_and_observations.1 _ _ _ h1).1, (C6_metadata_and_observations.1 _ _ _ h1).2.2 _
      (List.mem_cons_self _ _), ⟨h2, ((C6_metadata_and_observations.2.1 _ _ _ h2).2.2.2 _
      (List.mem_cons_self _ _)).2⟩, ?_, ⟨h4, (C6_metadata_and_observations.2.2.2.2.2.2.2.2.2.2
      _ _ _ _ _ _ _ _ h4).2 _ (List.mem_cons_self _ _)⟩⟩
  exact ⟨(C6_metadata_and_observations.2.2.1 _ _ _ h3).1, (C6_metadata_and_observations.2.2.1 _ _ _ h3).2.1⟩

/-! ## Claim C7 -/

/-- Replaying writes on an empty directory keeps, per path, the last
write to that path. -/
theorem runWrites_eq (ws : List (String × Salami.Jam)) (p : String) :
    Salami.runWrites ws p =
      ((ws.filter (fun w => w.1 == p)).getLast?).map (fun w => w.2) := by
  suffices h : ∀ (fs : String → Option Salami.Jam),
      (ws.foldl (fun fs w p => if p = w.1 then some w.2 else fs p) fs) p =
        match (ws.filter (fun w => w.1 == p)).getLast? with
        | some w => some w.2
        | none => fs p by
    rw [Salami.runWrites, h]
    cases hl : (ws.filter (fun w => w.1 == p)).getLast? <;> simp
  intro fs
  induction ws generalizing fs with
  | nil => rfl
  | cons w ws ih =>
    rw [List.foldl_cons, ih]
    by_cases hw : w.1 = p
    · rw [show List.filter (fun v => v.1 == p) (w :: ws) =
          w :: List.filter (fun v => v.1 == p) ws from
        List.filter_cons_of_pos (beq_iff_eq.mpr hw)]
      cases hl : (List.filter (fun v => v.1 == p) ws).getLast? with
      | some w' =>
        have hc : (w :: List.filter (fun v => v.1 == p) ws).getLast? = some w' := by
          rw [List.getLast?_cons, hl]
          rfl
        rw [hc]
      | none =>
        have hc : (w :: List.filter (fun v => v.1 == p) ws).getLast? = some w := by
          rw [List.getLast?_cons, hl]
          rfl
        rw [hc]
        simp [hw]
    · rw [show List.filter (fun v => v.1 == p) (w :: ws) =
          List.filter (fun v => v.1 == p) ws from
        List.filter_cons_of_neg (by simpa using hw)]
      cases hl : (List.filter (fun v => v.1 == p) ws).getLast? with
      | some w' => rfl
      | none =>
        rw [if_neg (fun h : p = w.1 => hw h.symm)]

/-- With pairwise distinct output paths, at most one write targets any
fixed path. -/
theorem filter_key_length_le_one {ws : List (String × Salami.Jam)}
    (h : (ws.map Prod.fst).Nodup) (p : String) :
    (ws.filter (fun w => w.1 == p)).length ≤ 1 := by
  rw [← List.countP_eq_length_filter]
  have hc : List.countP (fun w => w.1 == p) ws =
      List.count p (ws.map Prod.fst) := by
    rw [List.count, List.countP_map]
    rfl
  rw [hc]
  exact List.nodup_iff_count_le_one.mp h p

/-- A permutation of a list of length at most one is that list. -/
theorem perm_eq_of_length_le_one {l₁ l₂ : List (String × Salami.Jam)}
    (h : l₁.Perm l₂) (hl : l₂.length ≤ 1) : l₁ = l₂ := by
  cases l₂ with
  | nil => exact h.eq_nil
  | cons a t =>
    cases t with
    | nil => exact List.perm_singleton.mp h
    | cons b t2 => simp at hl

/-- With no raising row, a run in any completion order performs exactly
the per-row writes of that order. -/
theorem run_writes_eq_filterMap
    {jamOf : List String → Except PyError (Option Salami.Jam)}
    {l : List (List String)}
    (hok : ∀ md ∈ l, ∀ e, jamOf md ≠ .error e) :
    Salami.run_writes jamOf l = l.filterMap (Salami.row_write jamOf) := by
  induction l with
  | nil => rfl
  | cons md rest ih =>
    have ihr := ih (fun b hb => hok b (List.mem_cons_of_mem _ hb))
    by_cases hh : md.head?.getD "" = "SONG_ID"
    · simp [Salami.run_writes, Salami.row_write, hh, ihr]
    · cases hj : jamOf md with
      | error e => exact absurd hj (hok md (List.mem_cons_self _ _) e)
      | ok v =>
        cases v with
        | none => simp [Salami.run_writes, Salami.row_write, hh, hj, ihr]
        | some j => simp [Salami.run_writes, Salami.row_write, hh, hj, ihr]

/-- C7 (amended): per-file SALAMI processing is order-independent when no
two metadata rows share an output path and no row's create_JAMS raises:
for any two completion orders of the same row list (as produced by
process under any two values of n_jobs), the runs write the same files
with the same contents.  A row that raises aborts the joblib.Parallel
run, so with such a row the surviving file set depends on the completion
order; with duplicate song ids the surviving content of the shared path
does (see the counterexample for both). -/
theorem C7_parallel_determinism
    (jamOf : List String → Except PyError (Option Salami.Jam))
    (rows order1 order2 : List (List String))
    (h1 : order1.Perm rows) (h2 : order2.Perm rows)
    (hok : ∀ md ∈ rows, ∀ e, jamOf md ≠ .error e)
    (hnd : ((Salami.run_writes jamOf rows).map Prod.fst).Nodup) :
    Salami.runWrites (Salami.run_writes jamOf order1) =
      Salami.runWrites (Salami.run_writes jamOf order2) := by
  have hok1 : ∀ md ∈ order1, ∀ e, jamOf md ≠ .error e :=
    fun md hmd => hok md (h1.mem_iff.mp hmd)
  have hok2 : ∀ md ∈ order2, ∀ e, jamOf md ≠ .error e :=
    fun md hmd => hok md (h2.mem_iff.mp hmd)
  have p1 : (Salami.run_writes jamOf order1).Perm
      (Salami.run_writes jamOf rows) := by
    rw [run_writes_eq_filterMap hok1, run_writes_eq_filterMap hok]
    exact h1.filterMap _
  have p2 : (Salami.run_writes jamOf order2).Perm
      (Salami.run_writes jamOf rows) := by
    rw [run_writes_eq_filterMap hok2, run_writes_eq_filterMap hok]
    exact h2.filterMap _
  funext p
  rw [runWrites_eq, runWrites_eq]
  have f1 : (Salami.run_writes jamOf order1).filter (fun w => w.1 == p) =
      (Salami.run_writes jamOf rows).filter (fun w => w.1 == p) :=
    perm_eq_of_length_le_one (p1.filter _) (filter_key_length_le_one hnd p)
  have f2 : (Salami.run_writes jamOf order2).filter (fun w => w.1 == p) =
      (Salami.run_writes jamOf rows).filter (fun w => w.1 == p) :=
    perm_eq_of_length_le_one (p2.filter _) (filter_key_length_le_one hnd p)
  rw [f1, f2]

/-- C7 counterexample, refuting the claimed n_jobs-independence in both
ways it fails.  First, a metadata table with two rows sharing the song
id "3" but different titles writes 3.jams twice with different contents,
so the surviving content depends on which write lands last.  Second,
even with pairwise distinct output paths, a table whose middle row
raises (an annotation directory yielding no data) aborts the
joblib.Parallel run at that task: the rows completing before the raise
have written and the rest never do, so the written file set also depends
on the completion order. -/
theorem C7_counterexample :
    (Salami.dup_rows.reverse.Perm Salami.dup_rows ∧
      Salami.runWrites (Salami.run_writes Salami.row_jam Salami.dup_rows.reverse)
          "3.jams" ≠
        Salami.runWrites (Salami.run_writes Salami.row_jam Salami.dup_rows)
          "3.jams") ∧
    (Salami.distinct_rows.reverse.Perm Salami.distinct_rows ∧
      (Salami.distinct_rows.map Salami.out_name).Nodup ∧
      Salami.runWrites
          (Salami.run_writes Salami.row_jam_raising Salami.distinct_rows.reverse)
          "1.jams" ≠
        Salami.runWrites
          (Salami.run_writes Salami.row_jam_raising Salami.distinct_rows)
          "1.jams") :=
  ⟨⟨List.reverse_perm _, by decide⟩,
    ⟨List.reverse_perm _, by decide, by decide⟩⟩

/-- C7 witness: with two distinct song ids and no raising row, the
sequential completion order and the reversed one leave the same output
directory. -/
theorem C7_witness :
    ([["1", "", "", "", "", "", "", "T1", "A1"],
      ["2", "", "", "", "", "", "", "T2", "A2"]].Perm
      [["1", "", "", "", "", "", "", "T1", "A1"],
       ["2", "", "", "", "", "", "", "T2", "A2"]]) ∧
    ([["1", "", "", "", "", "", "", "T1", "A1"],
      ["2", "", "", "", "", "", "", "T2", "A2"]].reverse.Perm
      [["1", "", "", "", "", "", "", "T1", "A1"],
       ["2", "", "", "", "", "", "", "T2", "A2"]]) ∧
    (∀ md ∈ [["1", "", "", "", "", "", "", "T1", "A1"],
       ["2", "", "", "", "", "", "", "T2", "A2"]],
      ∀ e, Salami.row_jam md ≠ .error e) ∧
    ((Salami.run_writes Salami.row_jam
        [["1", "", "", "", "", "", "", "T1", "A1"],
         ["2", "", "", "", "", "", "", "T2", "A2"]]).map Prod.fst).Nodup ∧
    Salami.runWrites (Salami.run_writes Salami.row_jam
        [["1", "", "", "", "", "", "", "T1", "A1"],
         ["2", "", "", "", "", "", "", "T2", "A2"]]) =
      Salami.runWrites (Salami.run_writes Salami.row_jam
        ([["1", "", "", "", "", "", "", "T1", "A1"],
          ["2", "", "", "", "", "", "", "T2", "A2"]].reverse)) :=
  ⟨List.Perm.refl _, List.reverse_perm _,
    fun md hmd e h => by simp [Salami.row_jam] at h,
    by decide,
    C7_parallel_determinism Salami.row_jam
      [["1", "", "", "", "", "", "", "T1", "A1"],
       ["2", "", "", "", "", "", "", "T2", "A2"]] _ _
      (List.Perm.refl _) (List.reverse_perm _)
      (fun md hmd e h => by simp [Salami.row_jam] at h)
      (by decide)⟩

end RatReduction
